import Mathlib

/-!
Shallow embedding of the SecureString repository (SecureString.h, the
`SecureString<Char, ThrowsExceptions>` template) together with the
`Encryptor` interface it consumes.

Modelling conventions:
* Characters (`Char` units) are modelled as `Nat` values; the backing
  array `m_data` is a `List Nat` (with `none` for a null pointer), whose
  length is `m_num_Char_allocated`.
* `sizeof(Char)` is the parameter `cs` of the context; byte counts are
  computed exactly as the source does (`Char_to_bytes`, `bytes_to_Chars`).
* `new Char[n]` never returns null in standard C++ (it throws instead), so
  allocation always succeeds in the model; the freshly allocated memory is
  uninitialized, modelled by the context parameter `junk` filling fresh
  cells.
* The encryptor works in place on the buffer; it is modelled as a function
  from (number of bytes, contents) to (error code, new contents), with
  code 0 meaning success.  The constant scope flag
  `ACCESSIBLE_SAME_PROCESS` passed by the source is omitted.
* The field `released` is a ghost audit trail: each time `delete []` runs
  in `discard_data`, the exact contents of the array at that instant are
  appended, so zeroization-before-release properties can be stated.
* Error codes use the Linux <cerrno> values (EPERM = 1, E2BIG = 7,
  ENOMEM = 12); only their non-zeroness matters to the properties below.
-/

namespace SecureString

/-- errno value returned for writes to a read-only string. -/
def EPERM : Nat := 1

/-- errno value returned for an out-of-range offset. -/
def E2BIG : Nat := 7

/-- errno value returned for an allocation failure. -/
def ENOMEM : Nat := 12

/-- The `Encryptor` abstract base class: `encryption_supported`,
`block_size`, and in-place `encrypt` / `decrypt` taking the byte count and
the buffer contents and returning an error code with the new contents. -/
structure Encryptor where
  supported : Bool
  block_size : Nat
  encrypt : Nat → List Nat → Nat × List Nat
  decrypt : Nat → List Nat → Nat × List Nat

/-- Instantiation context: the injected encryptor, `sizeof(Char)`, and the
value filling freshly allocated (uninitialized) memory cells. -/
structure Ctx where
  enc : Encryptor
  cs : Nat
  junk : Nat

/-- The fields of a `SecureString` object: `m_num_Char`,
`m_num_Char_allocated`, `m_data`, `m_ro`, `m_encrypted`, plus the ghost
`released` audit trail of arrays as they were passed to `delete []`. -/
structure SS where
  num_Char : Nat
  num_Char_allocated : Nat
  data : Option (List Nat)
  ro : Bool
  encrypted : Bool
  released : List (List Nat)
deriving Repr, DecidableEq, Inhabited

/-- `Char_to_bytes(num_Chars) = num_Chars * sizeof(Char)`. -/
def Char_to_bytes (cs n : Nat) : Nat := n * cs

/-- `bytes_to_Chars(num_bytes) = num_bytes / sizeof(Char)`. -/
def bytes_to_Chars (cs n : Nat) : Nat := n / cs

/-- `length()`: number of characters. -/
def length (s : SS) : Nat := s.num_Char

/-- `size()`: number of bytes. -/
def size (ctx : Ctx) (s : SS) : Nat := Char_to_bytes ctx.cs s.num_Char

/-- `is_ro()`. -/
def is_ro (s : SS) : Bool := s.ro

/-- `make_ro()`: the source executes `m_ro = false;`. -/
def make_ro (s : SS) : SS := { s with ro := false }

/-- `encryptor_required_bytes(num_Char)`: block-size rounding. -/
def encryptor_required_bytes (ctx : Ctx) (num_Char : Nat) : Nat :=
  let required := ctx.enc.block_size
  if num_Char = 0 then required
  else ((Char_to_bytes ctx.cs num_Char + required - 1) / required) * required

/-- `std::fill(a, a + n, '\0')`: zero the first `n` cells. -/
def zeroFirst : Nat → List Nat → List Nat
  | 0, l => l
  | _ + 1, [] => []
  | n + 1, _ :: t => 0 :: zeroFirst n t

/-- `std::copy(src, src + n, dst)`: overwrite the first `n` cells of `dst`
with the first `n` cells of `src`. -/
def copyFirst (n : Nat) (src dst : List Nat) : List Nat :=
  src.take n ++ dst.drop n

/-- `discard_data()`: if `m_data` is non-null, zero its first `m_num_Char`
cells, `delete []` it (recorded in the ghost trail), null the pointer and
reset `m_num_Char_allocated`. -/
def discard_data (s : SS) : SS :=
  match s.data with
  | none => s
  | some a =>
      { s with data := none, num_Char_allocated := 0,
               released := s.released ++ [zeroFirst s.num_Char a] }

/-- `ensure_capacity(num_Char)`.  The `!data` (ENOMEM) branch is dead in
standard C++ because `new` throws on failure, so the model always
allocates; fresh cells hold `junk`. -/
def ensure_capacity (ctx : Ctx) (s : SS) (num_Char : Nat) : Nat × SS :=
  let required := encryptor_required_bytes ctx num_Char
  let ex := Char_to_bytes ctx.cs s.num_Char_allocated
  if required ≤ ex then (0, s)
  else
    let fresh := List.replicate (bytes_to_Chars ctx.cs required) ctx.junk
    let d := match s.data with
             | some old => copyFirst s.num_Char old fresh
             | none => fresh
    let s1 := discard_data s
    (0, { s1 with data := some d,
                  num_Char_allocated := bytes_to_Chars ctx.cs required })

/-- `protect_memory()`: encrypt the whole allocated array in place unless
already encrypted or null; set `m_encrypted` on success. -/
def protect_memory (ctx : Ctx) (s : SS) : Nat × SS :=
  if s.encrypted then (0, s)
  else
    match s.data with
    | none => (0, s)
    | some d =>
        let r := ctx.enc.encrypt (Char_to_bytes ctx.cs s.num_Char_allocated) d
        if r.1 = 0 then (0, { s with data := some r.2, encrypted := true })
        else (r.1, { s with data := some r.2 })

/-- `unprotect_memory()`: decrypt the whole allocated array in place unless
not encrypted or null; clear `m_encrypted` on success. -/
def unprotect_memory (ctx : Ctx) (s : SS) : Nat × SS :=
  if !s.encrypted then (0, s)
  else
    match s.data with
    | none => (0, s)
    | some d =>
        let r := ctx.enc.decrypt (Char_to_bytes ctx.cs s.num_Char_allocated) d
        if r.1 = 0 then (0, { s with data := some r.2, encrypted := false })
        else (r.1, { s with data := some r.2 })

/-- `protected_clear()`. -/
def protected_clear (s : SS) : Nat × SS :=
  if s.ro then (EPERM, s)
  else
    let s1 := discard_data s
    (0, { s1 with num_Char := 0, num_Char_allocated := 0, encrypted := false })

/-- `clear()` (the lock is irrelevant in this sequential model). -/
def clear (s : SS) : Nat × SS := protected_clear s

/-- The destructor: `m_ro = false; protected_clear();`. -/
def destruct (s : SS) : SS := (protected_clear { s with ro := false }).2

/-- `append(ch)`. -/
def append (ctx : Ctx) (ch : Nat) (s : SS) : Nat × SS :=
  if s.ro then (EPERM, s)
  else
    let r1 := unprotect_memory ctx s
    if r1.1 ≠ 0 then (r1.1, r1.2)
    else
      let r2 := ensure_capacity ctx r1.2 (r1.2.num_Char + 1)
      if r2.1 ≠ 0 then (r2.1, r2.2)
      else
        let s2 := r2.2
        let s3 := { s2 with data := s2.data.map (fun d => d.set s2.num_Char ch),
                            num_Char := s2.num_Char + 1 }
        protect_memory ctx s3

/-- The descending loop of `insert_at`:
`for (i = m_num_Char; i >= offset + 1; --i) m_data[i] = m_data[i-1];`.
The second argument is the loop counter `i`. -/
def shiftRightLoop (offset : Nat) : List Nat → Nat → List Nat
  | d, 0 => d
  | d, i + 1 =>
      if offset + 1 ≤ i + 1 then
        shiftRightLoop offset (d.set (i + 1) (d.getD i 0)) i
      else d

/-- `insert_at(offset, ch)`.  Faithful to the source: the guard is
`offset >= m_num_Char`, the result of `ensure_capacity` is ignored, and
`m_num_Char` is never incremented. -/
def insert_at (ctx : Ctx) (offset ch : Nat) (s : SS) : Nat × SS :=
  if s.ro then (EPERM, s)
  else if s.num_Char ≤ offset then (E2BIG, s)
  else
    let r1 := unprotect_memory ctx s
    if r1.1 ≠ 0 then (r1.1, r1.2)
    else
      let r2 := ensure_capacity ctx r1.2 (r1.2.num_Char + 1)
      let s2 := r2.2
      let s3 := { s2 with data :=
                    s2.data.map (fun d => (shiftRightLoop offset d s2.num_Char).set offset ch) }
      protect_memory ctx s3

/-- `set_at(offset, ch)`. -/
def set_at (ctx : Ctx) (offset ch : Nat) (s : SS) : Nat × SS :=
  if s.ro then (EPERM, s)
  else if s.num_Char ≤ offset then (E2BIG, s)
  else
    let r1 := unprotect_memory ctx s
    if r1.1 ≠ 0 then (r1.1, r1.2)
    else
      let s1 := r1.2
      protect_memory ctx { s1 with data := s1.data.map (fun d => d.set offset ch) }

/-- The ascending loop of `remove_at`, with explicit fuel equal to the
exact iteration count:
`for (i = offset + 1; i < m_num_Char; ++i) m_data[i-1] = m_data[i];`. -/
def shiftLeftLoopFuel : Nat → Nat → List Nat → Nat → List Nat
  | 0, _, d, _ => d
  | f + 1, n, d, i =>
      if i < n then shiftLeftLoopFuel f n (d.set (i - 1) (d.getD i 0)) (i + 1)
      else d

/-- The `remove_at` loop entered at counter value `i`; the fuel `n - i` is
exactly the number of iterations the C++ loop performs. -/
def shiftLeftLoop (n : Nat) (d : List Nat) (i : Nat) : List Nat :=
  shiftLeftLoopFuel (n - i) n d i

/-- `remove_at(offset)`: shift left, then `m_data[--m_num_Char] = '\0'`. -/
def remove_at (ctx : Ctx) (offset : Nat) (s : SS) : Nat × SS :=
  if s.ro then (EPERM, s)
  else if s.num_Char ≤ offset then (E2BIG, s)
  else
    let r1 := unprotect_memory ctx s
    if r1.1 ≠ 0 then (r1.1, r1.2)
    else
      let s1 := r1.2
      let s2 := { s1 with
        data :=
          s1.data.map (fun d => (shiftLeftLoop s1.num_Char d (offset + 1)).set (s1.num_Char - 1) 0),
        num_Char := s1.num_Char - 1 }
      protect_memory ctx s2

/-- `to_string()`.  On unprotect failure the empty string is returned.  On
success the source copies the first `m_num_Char` characters into a scratch
array `chr`, re-protects, writes the terminator `chr[m_num_Char] = '\0'`,
and builds `std::basic_string(chr)` from the C string — which reads up to
the first zero unit, hence the `takeWhile`.  The scratch array is then
zeroed and deleted (not observable). -/
def to_string (ctx : Ctx) (s : SS) : List Nat × SS :=
  let r1 := unprotect_memory ctx s
  if r1.1 ≠ 0 then ([], r1.2)
  else
    let s1 := r1.2
    let plain := (s1.data.getD []).take s1.num_Char
    let r2 := protect_memory ctx s1
    (plain.takeWhile (fun c => c != 0), r2.2)

/-- `strlen` / `wcslen` on the modelled character array: the number of
units before the first zero unit. -/
def strlen (a : List Nat) : Nat := (a.takeWhile (fun c => c != 0)).length

/-- The exceptions the constructors can throw. -/
inductive CtorErr where
  | encryptorExc
  | initExc
  | capacityExc
  | encryptionExc (code : Nat)
deriving DecidableEq, Repr

/-- `SecureString(Encryptor&)`: throws `SecureStringEncryptorException` if
`encryption_supported()` is false. -/
def construct_empty (ctx : Ctx) : Except CtorErr SS :=
  if ctx.enc.supported then
    Except.ok { num_Char := 0, num_Char_allocated := 0, data := none,
                ro := false, encrypted := false, released := [] }
  else Except.error CtorErr.encryptorExc

/-- `SecureString(Encryptor&, const Char *str)`: delegates to the one-arg
constructor, throws `SecureStringInitializationException` only when `str`
is null, then sets `m_num_Char = strlen(str)`, ensures capacity, copies
and protects. -/
def construct (ctx : Ctx) (str : Option (List Nat)) : Except CtorErr SS :=
  match construct_empty ctx with
  | Except.error e => Except.error e
  | Except.ok s0 =>
    match str with
    | none => Except.error CtorErr.initExc
    | some a =>
        let s1 := { s0 with num_Char := strlen a }
        let r := ensure_capacity ctx s1 s1.num_Char
        if r.1 ≠ 0 then Except.error CtorErr.capacityExc
        else
          let s2 := r.2
          let s3 := { s2 with data := s2.data.map (fun d => copyFirst s2.num_Char a d) }
          let r3 := protect_memory ctx s3
          if r3.1 ≠ 0 then Except.error (CtorErr.encryptionExc r3.1)
          else Except.ok r3.2

/-- Number of bytes handed to the encryptor for the current allocation. -/
def alloc_bytes (ctx : Ctx) (s : SS) : Nat :=
  Char_to_bytes ctx.cs s.num_Char_allocated

/-- A conforming encryption capability: `encrypt` and `decrypt` always
succeed, preserve the buffer length, and `decrypt` inverts `encrypt`. -/
structure Conforming (e : Encryptor) : Prop where
  enc_ok : ∀ nb l, (e.encrypt nb l).1 = 0
  dec_ok : ∀ nb l, (e.decrypt nb l).1 = 0
  enc_len : ∀ nb l, ((e.encrypt nb l).2).length = l.length
  dec_len : ∀ nb l, ((e.decrypt nb l).2).length = l.length
  dec_enc : ∀ nb l, (e.decrypt nb ((e.encrypt nb l).2)).2 = l

/-- Plain-sequence insertion, modelled from the spec's words: shift the
elements from `offset` on one position right and place `ch` at `offset`,
growing the sequence by one. -/
def plain_insert : List Nat → Nat → Nat → List Nat
  | l, 0, ch => ch :: l
  | [], _ + 1, ch => [ch]
  | c :: t, off + 1, ch => c :: plain_insert t off ch

end SecureString

open SecureString

/-- A conforming test encryptor: add one to every unit, block size 1. -/
def succEnc : Encryptor where
  supported := true
  block_size := 1
  encrypt := fun _ l => (0, l.map (fun c => c + 1))
  decrypt := fun _ l => (0, l.map (fun c => c - 1))

/-- The same conforming encryptor with block size 4 (forces padding). -/
def blockEnc : Encryptor := { succEnc with block_size := 4 }

/-- An encryptor whose decrypt always fails with code 9. -/
def failDecEnc : Encryptor where
  supported := true
  block_size := 1
  encrypt := fun _ l => (0, l.map (fun c => c + 1))
  decrypt := fun _ l => (9, l)

/-- An encryptor whose encrypt fails (code 5) exactly on buffers containing
the unit 120; decrypt always succeeds. -/
def pickyEnc : Encryptor where
  supported := true
  block_size := 1
  encrypt := fun _ l => if l.contains 120 then (5, l) else (0, l.map (fun c => c + 1))
  decrypt := fun _ l => (0, l.map (fun c => c - 1))

/-- `char` instantiation with the conforming block-size-1 encryptor and
zeroed fresh memory. -/
def ctxS : Ctx := ⟨succEnc, 1, 0⟩

/-- `char` instantiation with block size 4 and fresh memory holding 5. -/
def ctxB : Ctx := ⟨blockEnc, 1, 5⟩

/-- `char` instantiation with the failing-decrypt encryptor. -/
def ctxF : Ctx := ⟨failDecEnc, 1, 0⟩

/-- `char` instantiation with the sometimes-failing-encrypt encryptor. -/
def ctxP : Ctx := ⟨pickyEnc, 1, 0⟩

/-- Extract the state from a successful construction. -/
def fromOk (r : Except CtorErr SS) : SS := r.toOption.getD default

/-- The string "a" under `ctxS`. -/
def sA : SS := fromOk (construct ctxS (some [97]))

/-- The string "ab" under `ctxS`. -/
def sAB : SS := fromOk (construct ctxS (some [97, 98]))

/-- The string "ab" under `ctxP`. -/
def sABP : SS := fromOk (construct ctxP (some [97, 98]))

/-- The string "abc" under `ctxB` (allocates 4, one padding cell). -/
def sABC : SS := fromOk (construct ctxB (some [97, 98, 99]))

/-- The string "hi" under `ctxF`. -/
def sHI : SS := fromOk (construct ctxF (some [104, 105]))

example : sA = { num_Char := 1, num_Char_allocated := 1, data := some [98],
                 ro := false, encrypted := true, released := [] } := by decide

example : sABC = { num_Char := 3, num_Char_allocated := 4, data := some [98, 99, 100, 6],
                   ro := false, encrypted := true, released := [] } := by decide

/-- Plaintext-at-rest state reached under `ctxP` by a `set_at` whose
re-encrypt step fails: `set_at` returns the error but leaves the buffer
decrypted. -/
def sPlainAtRest : SS := (set_at ctxP 0 120 sABP).2

/-- C1.  The claim is false on the code: `make_ro()` executes
`m_ro = false;` (SecureString.h line 200), so the read-only flag is NOT
set; a subsequent `append` succeeds (returns 0) and `length()` grows from
1 to 2 instead of staying unchanged with an EPERM error. -/
theorem c1_make_ro_code_bug :
    is_ro (make_ro sA) = false
    ∧ (append ctxS 98 (make_ro sA)).1 = 0
    ∧ length (append ctxS 98 (make_ro sA)).2 = 2
    ∧ length sA = 1
    ∧ (0 : Nat) ≠ EPERM := by
  decide

/-- C2.  The claim is false on the code: `discard_data()` zero-fills only
the first `m_num_Char` cells (`std::fill(m_data, m_data + m_num_Char, 0)`)
before `delete []`, not the full `m_num_Char_allocated`.  Constructing
"abc" with a block-size-4 encryptor allocates 4 cells, and `clear()`
releases the array with its fourth cell (beyond `logical_length = 3`)
still holding the nonzero value 6. -/
theorem c2_zeroization_code_bug :
    sABC.num_Char = 3
    ∧ sABC.num_Char_allocated = 4
    ∧ (clear sABC).1 = 0
    ∧ ((clear sABC).2).released = [[0, 0, 0, 6]]
    ∧ [0, 0, 0, 6].getD 3 0 ≠ 0 := by
  decide

/-- C4.  The claim is false on the code: `insert_at` guards with
`offset >= m_num_Char`, so `offset == length()` is rejected with E2BIG
instead of appending, contradicting the method's own documentation
("offset ... may not be larger than the length"). -/
theorem c4_insert_at_end_code_bug :
    length sA = 1
    ∧ insert_at ctxS 1 120 sA = (E2BIG, sA)
    ∧ E2BIG ≠ 0 := by
  decide

/-- C5.  The claim is false on the code: `insert_at` never increments
`m_num_Char`, contradicting its own documentation ("results in a
SecureString that is one character larger").  Inserting 120 at offset 0 of
"ab" succeeds (returns 0) but leaves `length()` at 2 and `to_string()`
yields [120, 97] ("xa"), while the plain-sequence edit yields
[120, 97, 98] ("xab"). -/
theorem c5_insert_missing_increment_code_bug :
    (insert_at ctxS 0 120 sAB).1 = 0
    ∧ length (insert_at ctxS 0 120 sAB).2 = 2
    ∧ (to_string ctxS (insert_at ctxS 0 120 sAB).2).1 = [120, 97]
    ∧ plain_insert [97, 98] 0 120 = [120, 97, 98]
    ∧ (to_string ctxS (insert_at ctxS 0 120 sAB).2).1 ≠ plain_insert [97, 98] 0 120 := by
  decide

/-- C7.  The claim is false on the code: the constructor throws
`SecureStringInitializationException` only for a null `str`
(`if (!str) throw ...`); an empty (non-null) string is accepted and yields
a zero-length instance, although that exception's own documentation says
it indicates construction "with an empty string". -/
theorem c7_empty_init_code_bug :
    (construct ctxS (some [])).toOption.isSome = true
    ∧ (fromOk (construct ctxS (some []))).num_Char = 0
    ∧ (construct ctxS none).toOption = none := by
  decide

/-- C3 counterexample.  With an encryptor whose encrypt step can fail, a
completed public operation can leave a non-null buffer unencrypted at
rest: after `set_at` stores 120 (whose re-encrypt fails with code 5,
returned to the caller), a subsequent `to_string` succeeds — it returns
the full secret [120, 98] — yet its re-protect also fails silently, and
the instance is left with `m_data` non-null and `m_encrypted = false`
while no operation is in flight. -/
theorem c3_counterexample :
    (set_at ctxP 0 120 sABP).1 = 5
    ∧ sPlainAtRest.data.isSome = true
    ∧ sPlainAtRest.encrypted = false
    ∧ (to_string ctxP sPlainAtRest).1 = [120, 98]
    ∧ ((to_string ctxP sPlainAtRest).2).data.isSome = true
    ∧ ((to_string ctxP sPlainAtRest).2).encrypted = false := by
  decide

/-- C9 counterexample.  Positions beyond `logical_length` are not zero:
constructing "abc" with a block-size-4 encryptor and uninitialized fresh
memory holding 5 leaves cell 3 (≥ `logical_length = 3`) holding the
nonzero value 6 at rest (the encryption of the uninitialized 5), and it
still does after a further public `to_string` operation; the decrypted
view of that padding cell is the uninitialized content 5, not zero. -/
theorem c9_counterexample :
    sABC.num_Char = 3
    ∧ (sABC.data.getD []).getD 3 0 = 6
    ∧ ((ctxB.enc.decrypt (alloc_bytes ctxB sABC) (sABC.data.getD [])).2).getD 3 0 = 5
    ∧ (to_string ctxB sABC).1 = [97, 98, 99]
    ∧ (((to_string ctxB sABC).2).data.getD []).getD 3 0 = 6
    ∧ (6 : Nat) ≠ 0 := by
  decide

/-- Rounding up to a multiple of `b` does not decrease a value. -/
lemma le_ceil_mul (b x : Nat) (hb : 1 ≤ b) : x ≤ ((x + b - 1) / b) * b := by
  have h1 := Nat.div_add_mod (x + b - 1) b
  have h2 : (x + b - 1) % b < b := Nat.mod_lt _ hb
  rw [Nat.mul_comm]
  omega

/-- The block-rounded byte requirement covers the requested characters. -/
lemma required_ge (ctx : Ctx) (n : Nat) (hbs : 1 ≤ ctx.enc.block_size) :
    Char_to_bytes ctx.cs n ≤ encryptor_required_bytes ctx n := by
  unfold encryptor_required_bytes
  split
  · simp [Char_to_bytes, *]
  · exact le_ceil_mul _ _ hbs

/-- The byte requirement is positive for a positive block size. -/
lemma required_pos (ctx : Ctx) (n : Nat) (hcs : 1 ≤ ctx.cs)
    (hbs : 1 ≤ ctx.enc.block_size) : 1 ≤ encryptor_required_bytes ctx n := by
  rcases n with _ | m
  · simpa [encryptor_required_bytes] using hbs
  · have h1 : 0 < Char_to_bytes ctx.cs (m + 1) := Nat.mul_pos (Nat.succ_pos m) hcs
    exact le_trans h1 (required_ge ctx (m + 1) hbs)

/-- The reallocated array has room for the requested characters. -/
lemma alloc_ge (ctx : Ctx) (n : Nat) (hcs : 1 ≤ ctx.cs)
    (hbs : 1 ≤ ctx.enc.block_size) :
    n ≤ bytes_to_Chars ctx.cs (encryptor_required_bytes ctx n) := by
  unfold bytes_to_Chars
  rw [Nat.le_div_iff_mul_le hcs]
  exact required_ge ctx n hbs

/-- `takeWhile` is the identity on lists all of whose elements satisfy the
predicate. -/
lemma takeWhile_all {p : Nat → Bool} : ∀ {l : List Nat},
    (∀ c ∈ l, p c = true) → l.takeWhile p = l := by
  intro l
  induction l with
  | nil => intro _; rfl
  | cons c t ih =>
      intro h
      have hc : p c = true := h c (List.mem_cons_self c t)
      have ht : ∀ x ∈ t, p x = true := fun x hx => h x (List.mem_cons_of_mem c hx)
      simp [List.takeWhile_cons, hc, ih ht]

/-- `strlen` of a zero-free array is its length. -/
lemma strlen_eq {a : List Nat} (h : ∀ c ∈ a, c ≠ 0) : strlen a = a.length := by
  unfold strlen
  rw [takeWhile_all]
  intro c hc
  simpa using h c hc

/-- Reading back an in-bounds `set`. -/
lemma getD_set_self : ∀ (l : List Nat) (i a : Nat), i < l.length →
    (l.set i a).getD i 0 = a
  | [], i, a, h => by simp at h
  | _ :: _, 0, a, _ => rfl
  | _ :: t, i + 1, a, h => getD_set_self t i a (by simpa using h)

/-- The `remove_at` shift loop preserves the array length. -/
lemma shiftLeftLoopFuel_length : ∀ (f n : Nat) (d : List Nat) (i : Nat),
    (shiftLeftLoopFuel f n d i).length = d.length
  | 0, _, _, _ => rfl
  | f + 1, n, d, i => by
      unfold shiftLeftLoopFuel
      split
      · rw [shiftLeftLoopFuel_length f]
        simp
      · rfl

/-- The `insert_at` shift loop preserves the array length. -/
lemma shiftRightLoop_length (offset : Nat) : ∀ (d : List Nat) (i : Nat),
    (shiftRightLoop offset d i).length = d.length
  | _, 0 => rfl
  | d, i + 1 => by
      unfold shiftRightLoop
      split
      · rw [shiftRightLoop_length offset]
        simp
      · rfl

/-- The add-one test encryptor conforms. -/
lemma succEnc_conforming : Conforming succEnc := by
  constructor <;> intro nb l <;>
    simp [succEnc, List.map_map, Function.comp_def]

/-- The block-size-4 test encryptor conforms. -/
lemma blockEnc_conforming : Conforming blockEnc := by
  constructor <;> intro nb l <;>
    simp [blockEnc, succEnc, List.map_map, Function.comp_def]

/-- Evaluation of `protect_memory` on a decrypted non-null buffer under a
conforming encryptor. -/
lemma protect_memory_conforming (ctx : Ctx) (s : SS) (d : List Nat)
    (hc : Conforming ctx.enc) (he : s.encrypted = false) (hd : s.data = some d) :
    protect_memory ctx s =
      (0, { s with data := some ((ctx.enc.encrypt (alloc_bytes ctx s) d).2),
                   encrypted := true }) := by
  unfold protect_memory alloc_bytes
  rw [he, hd]
  simp [hc.enc_ok]

/-- Evaluation of `unprotect_memory` on an encrypted non-null buffer under
a conforming encryptor. -/
lemma unprotect_memory_conforming (ctx : Ctx) (s : SS) (d : List Nat)
    (hc : Conforming ctx.enc) (he : s.encrypted = true) (hd : s.data = some d) :
    unprotect_memory ctx s =
      (0, { s with data := some ((ctx.enc.decrypt (alloc_bytes ctx s) d).2),
                   encrypted := false }) := by
  unfold unprotect_memory alloc_bytes
  rw [he, hd]
  simp [hc.dec_ok]

/-- `unprotect_memory` is the identity on a plaintext buffer. -/
lemma unprotect_memory_plain (ctx : Ctx) (s : SS) (he : s.encrypted = false) :
    unprotect_memory ctx s = (0, s) := by
  unfold unprotect_memory
  rw [he]
  rfl

/-- Evaluation of `ensure_capacity` from a null buffer. -/
lemma ensure_capacity_none (ctx : Ctx) (n : Nat) (s : SS)
    (hd : s.data = none) (ha : s.num_Char_allocated = 0)
    (hcs : 1 ≤ ctx.cs) (hbs : 1 ≤ ctx.enc.block_size) :
    ensure_capacity ctx s n =
      (0, { s with
            data := some (List.replicate
              (bytes_to_Chars ctx.cs (encryptor_required_bytes ctx n)) ctx.junk),
            num_Char_allocated :=
              bytes_to_Chars ctx.cs (encryptor_required_bytes ctx n) }) := by
  unfold ensure_capacity
  have h0 : Char_to_bytes ctx.cs s.num_Char_allocated = 0 := by
    simp [ha, Char_to_bytes]
  have h1 : ¬ encryptor_required_bytes ctx n ≤ Char_to_bytes ctx.cs s.num_Char_allocated := by
    rw [h0]
    exact Nat.not_le.mpr (required_pos ctx n hcs hbs)
  simp only [h1, if_false, hd, discard_data]

/-- Characters allocated by the constructor for initial text `a`. -/
def ctor_alloc (ctx : Ctx) (a : List Nat) : Nat :=
  bytes_to_Chars ctx.cs (encryptor_required_bytes ctx (strlen a))

/-- Plaintext buffer contents right before the constructor protects:
the copied initial text followed by uninitialized padding. -/
def ctor_plain (ctx : Ctx) (a : List Nat) : List Nat :=
  copyFirst (strlen a) a (List.replicate (ctor_alloc ctx a) ctx.junk)

/-- The state produced by `SecureString(encryptor, str)` (proved below). -/
def ctor_state (ctx : Ctx) (a : List Nat) : SS :=
  { num_Char := strlen a,
    num_Char_allocated := ctor_alloc ctx a,
    data := some ((ctx.enc.encrypt (Char_to_bytes ctx.cs (ctor_alloc ctx a))
                    (ctor_plain ctx a)).2),
    ro := false, encrypted := true, released := [] }

/-- Evaluation of the two-argument constructor under a conforming
encryptor. -/
lemma construct_ok (ctx : Ctx) (a : List Nat) (hs : ctx.enc.supported = true)
    (hc : Conforming ctx.enc) (hcs : 1 ≤ ctx.cs) (hbs : 1 ≤ ctx.enc.block_size) :
    construct ctx (some a) = Except.ok (ctor_state ctx a) := by
  unfold construct construct_empty
  rw [hs]
  simp only [if_true]
  rw [ensure_capacity_none ctx (strlen a) _ rfl rfl hcs hbs]
  simp only [ne_eq, not_true_eq_false, if_false, Option.map_some]
  rw [protect_memory_conforming ctx _ _ hc rfl rfl]
  simp only [ne_eq, not_true_eq_false, if_false]
  rfl

/-- Evaluation of `unprotect_memory` when the decrypt call succeeds. -/
lemma unprotect_memory_ok (ctx : Ctx) (s : SS) (d : List Nat)
    (he : s.encrypted = true) (hd : s.data = some d)
    (hdec : (ctx.enc.decrypt (alloc_bytes ctx s) d).1 = 0) :
    unprotect_memory ctx s =
      (0, { s with data := some ((ctx.enc.decrypt (alloc_bytes ctx s) d).2),
                   encrypted := false }) := by
  unfold unprotect_memory alloc_bytes at *
  rw [he, hd]
  simp [hdec]

/-- Evaluation of `unprotect_memory` when the decrypt call fails: the error
is returned and `m_encrypted` is left set. -/
lemma unprotect_memory_fail (ctx : Ctx) (s : SS) (d : List Nat)
    (he : s.encrypted = true) (hd : s.data = some d)
    (hdec : (ctx.enc.decrypt (alloc_bytes ctx s) d).1 ≠ 0) :
    unprotect_memory ctx s =
      ((ctx.enc.decrypt (alloc_bytes ctx s) d).1,
       { s with data := some ((ctx.enc.decrypt (alloc_bytes ctx s) d).2) }) := by
  unfold unprotect_memory alloc_bytes at *
  rw [he, hd]
  simp [hdec]

/-- Evaluation of `to_string` when the unprotect step succeeds: the first
`m_num_Char` decrypted characters up to the first zero unit are returned,
and the original buffer is re-protected. -/
lemma to_string_eval (ctx : Ctx) (s : SS) (d : List Nat)
    (he : s.encrypted = true) (hd : s.data = some d)
    (hdec : (ctx.enc.decrypt (alloc_bytes ctx s) d).1 = 0) :
    to_string ctx s =
      ((((ctx.enc.decrypt (alloc_bytes ctx s) d).2).take s.num_Char).takeWhile
          (fun c => c != 0),
       (protect_memory ctx
          { s with data := some ((ctx.enc.decrypt (alloc_bytes ctx s) d).2),
                   encrypted := false }).2) := by
  unfold to_string
  rw [unprotect_memory_ok ctx s d he hd hdec]
  simp

/-- Evaluation of `to_string` when the unprotect step fails: the empty
string is returned. -/
lemma to_string_fail (ctx : Ctx) (s : SS) (d : List Nat)
    (he : s.encrypted = true) (hd : s.data = some d)
    (hdec : (ctx.enc.decrypt (alloc_bytes ctx s) d).1 ≠ 0) :
    to_string ctx s =
      ([], { s with data := some ((ctx.enc.decrypt (alloc_bytes ctx s) d).2) }) := by
  unfold to_string
  rw [unprotect_memory_fail ctx s d he hd hdec]
  simp [hdec]

/-- Under a conforming encryptor `unprotect_memory` never fails. -/
lemma unprotect_code_conforming (ctx : Ctx) (hc : Conforming ctx.enc) (s : SS) :
    (unprotect_memory ctx s).1 = 0 := by
  unfold unprotect_memory
  split
  · rfl
  · split
    · rfl
    · simp [hc.dec_ok]

/-- Under a conforming encryptor `protect_memory` never fails. -/
lemma protect_code_conforming (ctx : Ctx) (hc : Conforming ctx.enc) (s : SS) :
    (protect_memory ctx s).1 = 0 := by
  unfold protect_memory
  split
  · rfl
  · split
    · rfl
    · simp [hc.enc_ok]

/-- `ensure_capacity` never fails in the model (standard C++ `new` throws
rather than returning null). -/
lemma ensure_code (ctx : Ctx) (s : SS) (n : Nat) :
    (ensure_capacity ctx s n).1 = 0 := by
  unfold ensure_capacity
  cases hd : s.data <;> simp only [hd] <;> split <;> rfl

/-- A non-read-only `append` succeeds under a conforming encryptor. -/
lemma append_code_conforming (ctx : Ctx) (hc : Conforming ctx.enc) (ch : Nat)
    (s : SS) (hro : s.ro = false) :
    (append ctx ch s).1 = 0 := by
  unfold append
  rw [hro]
  simp [unprotect_code_conforming ctx hc, ensure_code,
        protect_code_conforming ctx hc]

/-- An in-range, non-read-only `insert_at` returns 0 under a conforming
encryptor. -/
lemma insert_at_code_conforming (ctx : Ctx) (hc : Conforming ctx.enc)
    (offset ch : Nat) (s : SS) (hro : s.ro = false) (hoff : offset < s.num_Char) :
    (insert_at ctx offset ch s).1 = 0 := by
  unfold insert_at
  rw [hro]
  simp [Nat.not_le.mpr hoff, unprotect_code_conforming ctx hc,
        protect_code_conforming ctx hc]

/-- An in-range, non-read-only `set_at` succeeds under a conforming
encryptor. -/
lemma set_at_code_conforming (ctx : Ctx) (hc : Conforming ctx.enc)
    (offset ch : Nat) (s : SS) (hro : s.ro = false) (hoff : offset < s.num_Char) :
    (set_at ctx offset ch s).1 = 0 := by
  unfold set_at
  rw [hro]
  simp [Nat.not_le.mpr hoff, unprotect_code_conforming ctx hc,
        protect_code_conforming ctx hc]

/-- An in-range, non-read-only `remove_at` succeeds under a conforming
encryptor. -/
lemma remove_at_code_conforming (ctx : Ctx) (hc : Conforming ctx.enc)
    (offset : Nat) (s : SS) (hro : s.ro = false) (hoff : offset < s.num_Char) :
    (remove_at ctx offset s).1 = 0 := by
  unfold remove_at
  rw [hro]
  simp [Nat.not_le.mpr hoff, unprotect_code_conforming ctx hc,
        protect_code_conforming ctx hc]

/-- An in-bounds `getD` value is a member of any sufficiently long take. -/
lemma mem_take_of_getD : ∀ (l : List Nat) (i n : Nat), i < n → i < l.length →
    l.getD i 0 ∈ l.take n
  | [], i, _, _, hil => absurd hil (by simp)
  | c :: t, 0, n, hin, _ => by
      rcases n with _ | m
      · omega
      · simp
  | c :: t, i + 1, n, hin, hil => by
      rcases n with _ | m
      · omega
      · have := mem_take_of_getD t i m (by omega) (by simpa using hil)
        simpa using List.mem_cons_of_mem c this

/-- If `takeWhile` returns the whole list, every element satisfies the
predicate. -/
lemma takeWhile_eq_self_imp {p : Nat → Bool} : ∀ {l : List Nat},
    l.takeWhile p = l → ∀ x ∈ l, p x = true := by
  intro l
  induction l with
  | nil => intro _ x hx; simp at hx
  | cons c t ih =>
      intro h x hx
      rw [List.takeWhile_cons] at h
      by_cases hp : p c = true
      · rw [if_pos hp] at h
        have ht : t.takeWhile p = t := by
          simpa using h
        rcases List.mem_cons.mp hx with hxc | hxt
        · rw [hxc]; exact hp
        · exact ih ht x hxt
      · rw [if_neg hp] at h
        simp at h

/-- C6.  Round trip: for any conforming encryption capability and any
valid (non-null, non-empty, zero-free) initial plaintext `a`, construction
succeeds, `length()` is the number of character units of `a`, and
`to_string()` returns exactly `a`. -/
theorem c6_roundtrip (ctx : Ctx) (a : List Nat)
    (hs : ctx.enc.supported = true) (hc : Conforming ctx.enc)
    (hcs : 1 ≤ ctx.cs) (hbs : 1 ≤ ctx.enc.block_size)
    (hne : a ≠ []) (hz : ∀ c ∈ a, c ≠ 0) :
    (construct ctx (some a)).toOption.isSome = true
    ∧ length (fromOk (construct ctx (some a))) = a.length
    ∧ (to_string ctx (fromOk (construct ctx (some a)))).1 = a := by
  have hcons := construct_ok ctx a hs hc hcs hbs
  rw [hcons]
  have hfrom : fromOk (Except.ok (ctor_state ctx a)) = ctor_state ctx a := rfl
  rw [hfrom]
  have hsl : strlen a = a.length := strlen_eq hz
  refine ⟨rfl, ?_, ?_⟩
  · simp [length, ctor_state, hsl]
  · have hts := to_string_eval ctx (ctor_state ctx a)
      ((ctx.enc.encrypt (Char_to_bytes ctx.cs (ctor_alloc ctx a)) (ctor_plain ctx a)).2)
      rfl rfl (hc.dec_ok _ _)
    rw [hts]
    show ((((ctx.enc.decrypt (Char_to_bytes ctx.cs (ctor_alloc ctx a))
        ((ctx.enc.encrypt (Char_to_bytes ctx.cs (ctor_alloc ctx a))
          (ctor_plain ctx a)).2)).2).take (strlen a)).takeWhile (fun c => c != 0)) = a
    rw [hc.dec_enc]
    simp only [ctor_plain, copyFirst, hsl, List.take_length]
    rw [List.take_left]
    exact takeWhile_all (fun c hcm => by simp [hz c hcm])

/-- Witness for C6 at the plaintext "hi" with the conforming add-one
encryptor. -/
theorem c6_roundtrip_witness :
    (construct ctxS (some [104, 105])).toOption.isSome = true
    ∧ length (fromOk (construct ctxS (some [104, 105]))) = 2
    ∧ (to_string ctxS (fromOk (construct ctxS (some [104, 105])))).1 = [104, 105] := by
  have h := c6_roundtrip ctxS [104, 105] rfl succEnc_conforming (by decide)
    (by decide) (by decide) (by decide)
  exact ⟨h.1, h.2.1, h.2.2⟩

/-- C10.  If the decrypted logical sequence holds a zero unit at position
`i < logical_length`, then `to_string` returns only the prefix strictly
before the first zero unit — not the whole logical sequence — because the
result is built from the C string `chr`; and `append`, `insert_at`,
`set_at` do permit storing a zero unit (they return 0). -/
theorem c10_nul_truncation (ctx : Ctx) (s : SS) (d : List Nat) (i : Nat)
    (hc : Conforming ctx.enc) (he : s.encrypted = true) (hd : s.data = some d)
    (hro : s.ro = false) (hi : i < s.num_Char)
    (hlen : s.num_Char ≤ ((ctx.enc.decrypt (alloc_bytes ctx s) d).2).length)
    (hz : ((ctx.enc.decrypt (alloc_bytes ctx s) d).2).getD i 0 = 0) :
    (to_string ctx s).1 =
      (((ctx.enc.decrypt (alloc_bytes ctx s) d).2).take s.num_Char).takeWhile
        (fun c => c != 0)
    ∧ (to_string ctx s).1 ≠ ((ctx.enc.decrypt (alloc_bytes ctx s) d).2).take s.num_Char
    ∧ (append ctx 0 s).1 = 0
    ∧ (insert_at ctx i 0 s).1 = 0
    ∧ (set_at ctx i 0 s).1 = 0 := by
  have hts := to_string_eval ctx s d he hd (hc.dec_ok _ _)
  constructor
  · rw [hts]
  constructor
  · rw [hts]
    intro hEq
    have h0mem : (0 : Nat) ∈ ((ctx.enc.decrypt (alloc_bytes ctx s) d).2).take s.num_Char := by
      have hm := mem_take_of_getD ((ctx.enc.decrypt (alloc_bytes ctx s) d).2) i
        s.num_Char hi (lt_of_lt_of_le hi hlen)
      rwa [hz] at hm
    have hall := takeWhile_eq_self_imp hEq 0 h0mem
    simp at hall
  exact ⟨append_code_conforming ctx hc 0 s hro,
         insert_at_code_conforming ctx hc i 0 s hro hi,
         set_at_code_conforming ctx hc i 0 s hro hi⟩

/-- The state reached from "abc" (block size 4) by `set_at(1, 0)`: its
logical sequence is [97, 0, 99]. -/
def sZ : SS := (set_at ctxB 1 0 sABC).2

/-- Witness for C10 at a stored sequence [97, 0, 99]: `to_string` returns
only [97]. -/
theorem c10_witness :
    (to_string ctxB sZ).1 = [97]
    ∧ (to_string ctxB sZ).1 ≠ [97, 0, 99]
    ∧ (append ctxB 0 sZ).1 = 0 := by
  have h := c10_nul_truncation ctxB sZ [98, 1, 100, 6] 1 blockEnc_conforming
    (by decide) (by decide) (by decide) (by decide) (by decide) (by decide)
  refine ⟨?_, ?_, h.2.2.1⟩
  · rw [h.1]
    decide
  · intro hEq
    exact h.2.1 (by rw [hEq]; decide)

/-- C8.  If the unprotect (decrypt) step fails during `to_string`, the
empty string is returned with no error signal; every other operation with
an internal unprotect step propagates the error code to its caller; and on
the success path `to_string` copies the logical characters out of the
decrypted buffer and re-protects the original before returning. -/
theorem c8_to_string_error_swallow (ctx : Ctx) (s : SS) (d : List Nat) (ch off : Nat)
    (he : s.encrypted = true) (hd : s.data = some d) :
    ((ctx.enc.decrypt (alloc_bytes ctx s) d).1 ≠ 0 →
        (to_string ctx s).1 = []
        ∧ (s.ro = false →
             (append ctx ch s).1 = (ctx.enc.decrypt (alloc_bytes ctx s) d).1)
        ∧ (s.ro = false → off < s.num_Char →
             (insert_at ctx off ch s).1 = (ctx.enc.decrypt (alloc_bytes ctx s) d).1)
        ∧ (s.ro = false → off < s.num_Char →
             (set_at ctx off ch s).1 = (ctx.enc.decrypt (alloc_bytes ctx s) d).1)
        ∧ (s.ro = false → off < s.num_Char →
             (remove_at ctx off s).1 = (ctx.enc.decrypt (alloc_bytes ctx s) d).1))
    ∧ ((ctx.enc.decrypt (alloc_bytes ctx s) d).1 = 0 →
        to_string ctx s =
          ((((ctx.enc.decrypt (alloc_bytes ctx s) d).2).take s.num_Char).takeWhile
              (fun c => c != 0),
           (protect_memory ctx
              { s with data := some ((ctx.enc.decrypt (alloc_bytes ctx s) d).2),
                       encrypted := false }).2)) := by
  constructor
  · intro hfail
    refine ⟨?_, ?_, ?_, ?_, ?_⟩
    · rw [to_string_fail ctx s d he hd hfail]
    · intro hro
      unfold append
      rw [hro]
      simp [unprotect_memory_fail ctx s d he hd hfail, hfail]
    · intro hro hoff
      unfold insert_at
      rw [hro]
      simp [Nat.not_le.mpr hoff, unprotect_memory_fail ctx s d he hd hfail, hfail]
    · intro hro hoff
      unfold set_at
      rw [hro]
      simp [Nat.not_le.mpr hoff, unprotect_memory_fail ctx s d he hd hfail, hfail]
    · intro hro hoff
      unfold remove_at
      rw [hro]
      simp [Nat.not_le.mpr hoff, unprotect_memory_fail ctx s d he hd hfail, hfail]
  · intro hok
    exact to_string_eval ctx s d he hd hok

/-- Witness for C8 with an encryptor whose decrypt fails with code 9:
`to_string` swallows the error and returns empty, while `append` and
`set_at` surface the code 9. -/
theorem c8_witness :
    (to_string ctxF sHI).1 = []
    ∧ (append ctxF 97 sHI).1 = 9
    ∧ (set_at ctxF 0 97 sHI).1 = 9 := by
  have h := c8_to_string_error_swallow ctxF sHI [105, 106] 97 0 (by decide) (by decide)
  have hf := h.1 (by decide)
  refine ⟨hf.1, ?_, ?_⟩
  · rw [hf.2.1 (by decide)]
    decide
  · rw [hf.2.2.2.1 (by decide) (by decide)]
    decide

/-- The at-rest discipline of claim C3, restricted to the flag: a non-null
buffer is marked encrypted; and a null buffer has no allocation. -/
def InvC3 (s : SS) : Prop :=
  (s.data.isSome = true → s.encrypted = true)
  ∧ (s.data = none → s.num_Char_allocated = 0)

/-- `unprotect_memory` under a conforming encryptor: nullness, length,
capacity and the read-only flag are preserved, and a null buffer is left
untouched. -/
lemma unprotect_snd_conforming (ctx : Ctx) (hc : Conforming ctx.enc) (s : SS) :
    ((unprotect_memory ctx s).2).data.isSome = s.data.isSome
    ∧ ((unprotect_memory ctx s).2).num_Char = s.num_Char
    ∧ ((unprotect_memory ctx s).2).num_Char_allocated = s.num_Char_allocated
    ∧ ((unprotect_memory ctx s).2).ro = s.ro
    ∧ (s.data = none → (unprotect_memory ctx s).2 = s) := by
  unfold unprotect_memory
  split
  · simp
  · cases hd : s.data
    · simp [hd]
    · simp [hd, hc.dec_ok]

/-- `protect_memory` preserves length, capacity and the read-only flag. -/
lemma protect_proj (ctx : Ctx) (s : SS) :
    ((protect_memory ctx s).2).num_Char = s.num_Char
    ∧ ((protect_memory ctx s).2).num_Char_allocated = s.num_Char_allocated
    ∧ ((protect_memory ctx s).2).ro = s.ro := by
  unfold protect_memory
  split
  · exact ⟨rfl, rfl, rfl⟩
  · cases hd : s.data
    · simp [hd]
    · simp only [hd]
      split <;> simp

/-- `ensure_capacity` preserves length, the encrypted flag and the
read-only flag. -/
lemma ensure_proj (ctx : Ctx) (s : SS) (n : Nat) :
    ((ensure_capacity ctx s n).2).num_Char = s.num_Char
    ∧ ((ensure_capacity ctx s n).2).encrypted = s.encrypted
    ∧ ((ensure_capacity ctx s n).2).ro = s.ro := by
  unfold ensure_capacity
  cases hd : s.data <;> simp only [hd] <;> split <;> simp [discard_data, hd]

/-- After `ensure_capacity` for at least one character, the buffer is
non-null (either it already was, or a fresh array was adopted). -/
lemma ensure_snd_isSome (ctx : Ctx) (s : SS) (n : Nat)
    (hcs : 1 ≤ ctx.cs) (hbs : 1 ≤ ctx.enc.block_size) (hn : 1 ≤ n)
    (h2 : s.data = none → s.num_Char_allocated = 0) :
    ((ensure_capacity ctx s n).2).data.isSome = true := by
  unfold ensure_capacity
  cases hd : s.data with
  | none =>
      have hreq := required_pos ctx n hcs hbs
      have hex : Char_to_bytes ctx.cs s.num_Char_allocated = 0 := by
        simp [h2 hd, Char_to_bytes]
      have hnle : ¬ encryptor_required_bytes ctx n ≤
          Char_to_bytes ctx.cs s.num_Char_allocated := by
        rw [hex]
        omega
      simp only [hd]
      rw [if_neg hnle]
      simp
  | some old =>
      simp only [hd]
      split <;> simp [hd]

/-- `protect_memory` re-establishes the C3 flag discipline on any state
whose null case carries no allocation. -/
lemma protect_invC3 (ctx : Ctx) (hc : Conforming ctx.enc) (s : SS)
    (h2 : s.data = none → s.num_Char_allocated = 0) :
    InvC3 (protect_memory ctx s).2 := by
  unfold protect_memory InvC3
  split
  · rename_i henc
    exact ⟨fun _ => henc, fun hd => h2 hd⟩
  · cases hd : s.data
    · simp only [hd]
      exact ⟨fun hs => by simp at hs, fun _ => h2 hd⟩
    · simp [hd, hc.enc_ok]

/-- C3 (amended).  Under an encryption capability whose encrypt and
decrypt calls always succeed, every public operation preserves the at-rest
discipline: the encrypted flag is true whenever the backing array is
non-null (and a null array carries no allocation), and a successful
construction establishes it. -/
theorem c3_invariant_conforming (ctx : Ctx) (hc : Conforming ctx.enc)
    (hcs : 1 ≤ ctx.cs) (hbs : 1 ≤ ctx.enc.block_size)
    (s : SS) (h : InvC3 s) (ch off : Nat) (a : List Nat) :
    InvC3 (make_ro s)
    ∧ InvC3 (append ctx ch s).2
    ∧ InvC3 (insert_at ctx off ch s).2
    ∧ InvC3 (set_at ctx off ch s).2
    ∧ InvC3 (remove_at ctx off s).2
    ∧ InvC3 (clear s).2
    ∧ InvC3 (to_string ctx s).2
    ∧ InvC3 (destruct s)
    ∧ (∀ s0, construct ctx (some a) = Except.ok s0 → InvC3 s0) := by
  obtain ⟨husome, hunum, hualloc, huro, hunone⟩ := unprotect_snd_conforming ctx hc s
  have hucode := unprotect_code_conforming ctx hc s
  have h2u : (unprotect_memory ctx s).2.data = none →
      (unprotect_memory ctx s).2.num_Char_allocated = 0 := by
    intro hud
    have hsd : s.data = none := by
      cases hsd : s.data
      · rfl
      · exfalso
        rw [hsd] at husome
        rw [hud] at husome
        simp at husome
    rw [hualloc]
    exact h.2 hsd
  refine ⟨h, ?_, ?_, ?_, ?_, ?_, ?_, ?_, ?_⟩
  · -- append
    by_cases hro : s.ro = true
    · simp only [append, hro, if_true]
      exact h
    · have hro' : s.ro = false := by simpa using hro
      unfold append
      rw [hro']
      simp only [Bool.false_eq_true, if_false, hucode, ne_eq, not_true_eq_false,
        ite_false, ensure_code]
      apply protect_invC3 ctx hc
      intro hnone3
      exfalso
      have hesome := ensure_snd_isSome ctx (unprotect_memory ctx s).2
        ((unprotect_memory ctx s).2.num_Char + 1) hcs hbs (by omega) h2u
      obtain ⟨dd, hdd⟩ := Option.isSome_iff_exists.mp hesome
      rw [hdd] at hnone3
      simp at hnone3
  · -- insert_at
    by_cases hro : s.ro = true
    · simp only [insert_at, hro, if_true]
      exact h
    · have hro' : s.ro = false := by simpa using hro
      by_cases hoff2 : s.num_Char ≤ off
      · simp only [insert_at, hro', Bool.false_eq_true, if_false, hoff2, if_true]
        exact h
      · unfold insert_at
        rw [hro']
        simp only [Bool.false_eq_true, if_false, hoff2, ite_false, hucode, ne_eq,
          not_true_eq_false]
        apply protect_invC3 ctx hc
        intro hnone3
        exfalso
        have hesome := ensure_snd_isSome ctx (unprotect_memory ctx s).2
          ((unprotect_memory ctx s).2.num_Char + 1) hcs hbs (by omega) h2u
        obtain ⟨dd, hdd⟩ := Option.isSome_iff_exists.mp hesome
        rw [hdd] at hnone3
        simp at hnone3
  · -- set_at
    by_cases hro : s.ro = true
    · simp only [set_at, hro, if_true]
      exact h
    · have hro' : s.ro = false := by simpa using hro
      by_cases hoff2 : s.num_Char ≤ off
      · simp only [set_at, hro', Bool.false_eq_true, if_false, hoff2, if_true]
        exact h
      · unfold set_at
        rw [hro']
        simp only [Bool.false_eq_true, if_false, hoff2, ite_false, hucode, ne_eq,
          not_true_eq_false]
        apply protect_invC3 ctx hc
        intro hnone3
        cases hud : (unprotect_memory ctx s).2.data
        · exact h2u hud
        · exfalso
          rw [hud] at hnone3
          simp at hnone3
  · -- remove_at
    by_cases hro : s.ro = true
    · simp only [remove_at, hro, if_true]
      exact h
    · have hro' : s.ro = false := by simpa using hro
      by_cases hoff2 : s.num_Char ≤ off
      · simp only [remove_at, hro', Bool.false_eq_true, if_false, hoff2, if_true]
        exact h
      · unfold remove_at
        rw [hro']
        simp only [Bool.false_eq_true, if_false, hoff2, ite_false, hucode, ne_eq,
          not_true_eq_false]
        apply protect_invC3 ctx hc
        intro hnone3
        cases hud : (unprotect_memory ctx s).2.data
        · exact h2u hud
        · exfalso
          rw [hud] at hnone3
          simp at hnone3
  · -- clear
    by_cases hro : s.ro = true
    · simp only [clear, protected_clear, hro, if_true]
      exact h
    · have hro' : s.ro = false := by simpa using hro
      cases hd : s.data <;>
        simp [clear, protected_clear, hro', discard_data, hd, InvC3]
  · -- to_string
    unfold to_string
    simp only [hucode, ne_eq, not_true_eq_false, ite_false]
    apply protect_invC3 ctx hc
    exact h2u
  · -- destruct
    cases hd : s.data <;>
      simp [destruct, protected_clear, discard_data, hd, InvC3]
  · -- construct
    intro s0 h0
    by_cases hs : ctx.enc.supported = true
    · rw [construct_ok ctx a hs hc hcs hbs] at h0
      injection h0 with h1
      rw [← h1]
      exact ⟨fun _ => rfl, fun hcontr => by simp [ctor_state] at hcontr⟩
    · exfalso
      have hs' : ctx.enc.supported = false := by simpa using hs
      simp [construct, construct_empty, hs'] at h0

/-- Witness for C3 at the concrete conforming context and the state built
from "a". -/
theorem c3_witness :
    InvC3 (append ctxS 97 sA).2 ∧ InvC3 (to_string ctxS sA).2 := by
  have h := c3_invariant_conforming ctxS succEnc_conforming (by decide) (by decide)
    sA ⟨fun _ => by decide, fun h' => absurd h' (by decide)⟩ 97 0 []
  exact ⟨h.2.1, h.2.2.2.2.2.2.1⟩

/-- The `remove_at` loop (entry form) preserves the array length. -/
lemma shiftLeftLoop_length (n : Nat) (d : List Nat) (i : Nat) :
    (shiftLeftLoop n d i).length = d.length :=
  shiftLeftLoopFuel_length _ _ _ _

/-- C9 (amended).  Padding beyond `logical_length` is not zero in general
(see the counterexample); what the code does guarantee is local to
`remove_at`: a successful `remove_at` writes zero into the vacated last
slot, so the decrypted view of the resulting buffer holds zero at the new
`logical_length`. -/
theorem c9_remove_at_zero_slot (ctx : Ctx) (s : SS) (d : List Nat) (offset : Nat)
    (hc : Conforming ctx.enc) (he : s.encrypted = true) (hd : s.data = some d)
    (hro : s.ro = false) (hoff : offset < s.num_Char) (hdl : s.num_Char ≤ d.length) :
    (remove_at ctx offset s).1 = 0
    ∧ length (remove_at ctx offset s).2 = s.num_Char - 1
    ∧ ((ctx.enc.decrypt (alloc_bytes ctx (remove_at ctx offset s).2)
          (((remove_at ctx offset s).2).data.getD [])).2).getD (s.num_Char - 1) 0 = 0 := by
  have hu := unprotect_memory_ok ctx s d he hd (hc.dec_ok _ _)
  have hrem : remove_at ctx offset s = protect_memory ctx
      { s with
        data := some ((shiftLeftLoop s.num_Char
            ((ctx.enc.decrypt (alloc_bytes ctx s) d).2) (offset + 1)).set
            (s.num_Char - 1) 0),
        encrypted := false, num_Char := s.num_Char - 1 } := by
    unfold remove_at
    rw [hro]
    rw [if_neg (by simp)]
    rw [if_neg (Nat.not_le.mpr hoff)]
    rw [hu]
    simp [hro]
  refine ⟨?_, ?_, ?_⟩
  · rw [hrem]
    exact protect_code_conforming ctx hc _
  · rw [hrem]
    simp [length, (protect_proj ctx _).1]
  · rw [hrem]
    rw [protect_memory_conforming ctx _ _ hc rfl rfl]
    show ((ctx.enc.decrypt (Char_to_bytes ctx.cs s.num_Char_allocated)
        ((ctx.enc.encrypt (Char_to_bytes ctx.cs s.num_Char_allocated)
          ((shiftLeftLoop s.num_Char
              ((ctx.enc.decrypt (alloc_bytes ctx s) d).2) (offset + 1)).set
              (s.num_Char - 1) 0)).2)).2).getD (s.num_Char - 1) 0 = 0
    rw [hc.dec_enc]
    apply getD_set_self
    rw [shiftLeftLoop_length]
    rw [hc.dec_len]
    omega

/-- Witness for C9's amended claim: removing offset 0 from "abc" leaves
zero in the decrypted view at the new length 2. -/
theorem c9_witness :
    (remove_at ctxB 0 sABC).1 = 0
    ∧ length (remove_at ctxB 0 sABC).2 = 2
    ∧ ((ctxB.enc.decrypt (alloc_bytes ctxB (remove_at ctxB 0 sABC).2)
          (((remove_at ctxB 0 sABC).2).data.getD [])).2).getD 2 0 = 0 := by
  have h := c9_remove_at_zero_slot ctxB sABC [98, 99, 100, 6] 0 blockEnc_conforming
    (by decide) (by decide) (by decide) (by decide) (by decide)
  exact ⟨h.1, h.2.1, h.2.2⟩
